import Mathlib

/-!
# xai_translate: the WAV reader and the whisper JNI boundary

A shallow embedding of `android/app/src/main/cpp/whisper_jni.cpp`.

* A file is the list of its bytes; a path that cannot be opened is `none`.
* `float` values are modelled by exact rationals.  On the mono path and on the
  stereo path with identical channels every intermediate value is `m * 2^-15`
  for an integer `m` of magnitude at most `2^16`, which single precision holds
  exactly, so the rationals coincide with what the program computes there.
* Undefined behaviour of the C++ program (a write past the end of a vector, an
  integer division by zero, an out-of-range vector read, handing a released
  context to the engine) is an explicit `Fault`.
* The whisper engine (`whisper.h`) is not part of the repository; it is a
  parameter (`Engine`), and the set of live contexts is tracked explicitly.
-/

namespace WhisperJNI

/-! ## Data model -/

/-- One octet of a file. -/
abbrev Byte := Fin 256

/-- The ways in which the C++ program can leave defined behaviour. -/
inductive Fault where
  | heapOverflow
  | divByZero
  | outOfBounds
  | invalidContext
  deriving DecidableEq, Repr

/-- The string literal `"RIFF"` as bytes. -/
def RIFF : List Byte := [82, 73, 70, 70]

/-- The string literal `"WAVE"` as bytes. -/
def WAVE : List Byte := [87, 65, 86, 69]

/-- The read `*(unsigned short *)(header + off)` on a little-endian host. -/
def read_u16 (header : List Byte) (off : Nat) : Nat :=
  (header.getD off 0).val + 256 * (header.getD (off + 1) 0).val

/-- The read `*(unsigned int *)(header + off)` on a little-endian host. -/
def read_u32 (header : List Byte) (off : Nat) : Nat :=
  (header.getD off 0).val + 256 * (header.getD (off + 1) 0).val
    + 65536 * (header.getD (off + 2) 0).val + 16777216 * (header.getD (off + 3) 0).val

/-- The value of a `short` stored as the two bytes `lo`, `hi` (two's complement). -/
def to_short (lo hi : Byte) : Int :=
  if lo.val + 256 * hi.val < 32768 then ((lo.val + 256 * hi.val : Nat) : Int)
  else ((lo.val + 256 * hi.val : Nat) : Int) - 65536

/-- The call `fread(buf, 1, count, f)`: at most `count` bytes of the rest of the stream are
stored from the start of the destination, whose storage is `buf`; storing more bytes than the
destination holds is a heap overflow. -/
def fread (buf : List Byte) (count : Nat) (stream : List Byte) : Except Fault (List Byte) :=
  if buf.length < (stream.take count).length then .error .heapOverflow
  else .ok (stream.take count ++ buf.drop (stream.take count).length)

/-- The number of elements `pcm16.size()` of a `std::vector<short>` with the given storage. -/
def pcm16_size (storage : List Byte) : Nat := storage.length / 2

/-- The element read `pcm16[k]` of a `std::vector<short>` with the given storage. -/
def pcm16_at (storage : List Byte) (k : Nat) : Except Fault Int :=
  if k < pcm16_size storage then
    .ok (to_short (storage.getD (2 * k) 0) (storage.getD (2 * k + 1) 0))
  else .error .outOfBounds

/-- The inner loop of `read_wav`:
`for (int c = 0; c < channels; c++) sum += pcm16[i * channels + c] / 32768.0f;`
followed by `sum / channels`. -/
def downmix_frame (storage : List Byte) (channels i : Nat) : Except Fault ℚ := do
  let sum ← (List.range channels).foldlM
    (fun (sum : ℚ) c => do
      let x ← pcm16_at storage (i * channels + c)
      pure (sum + (x : ℚ) / 32768)) (0 : ℚ)
  pure (sum / (channels : ℚ))

/-- The call `v.resize(n)` on a `std::vector<float>`: truncate, or pad with zeros. -/
def resize (v : List ℚ) (n : Nat) : List ℚ :=
  v.take n ++ List.replicate (n - v.length) 0

/-- The outer loop of `read_wav`:
`for (size_t i = 0; i < pcmf32.size(); i++) { ...; pcmf32[i] = sum / channels; }`. -/
def downmix (storage : List Byte) (channels : Nat) (pcmf32 : List ℚ) : Except Fault (List ℚ) :=
  (List.range pcmf32.length).foldlM
    (fun (out : List ℚ) i => do
      let v ← downmix_frame storage channels i
      pure (out.set i v)) pcmf32

/-- What `read_wav` leaves behind: its return value and the two reference parameters. -/
structure WavResult where
  ok : Bool
  pcmf32 : List ℚ
  sample_rate : Nat
  deriving DecidableEq

/-- The function `read_wav(fname, pcmf32, sample_rate)`.  `file` is the content of the file
named `fname` (`none` when `fopen` fails); `pcmf32` and `sample_rate` are the values of the
reference parameters on entry. -/
def read_wav (file : Option (List Byte)) (pcmf32 : List ℚ) (sample_rate : Nat) :
    Except Fault WavResult :=
  match file with
  | none => .ok ⟨false, pcmf32, sample_rate⟩
  | some bytes =>
    let header := bytes.take 44
    if header.length ≠ 44 then .ok ⟨false, pcmf32, sample_rate⟩
    else if header.take 4 ≠ RIFF ∨ (header.drop 8).take 4 ≠ WAVE then
      .ok ⟨false, pcmf32, sample_rate⟩
    else
      let sample_rate := read_u32 header 24
      let channels := read_u16 header 22
      let bits_per_sample := read_u16 header 34
      let file_size := bytes.length
      let data_size := file_size - 44
      if bits_per_sample = 16 then do
        let pcm16 ← fread (List.replicate (2 * (data_size / 2)) 0) data_size (bytes.drop 44)
        if channels = 0 then throw Fault.divByZero
        let pcmf32 ← downmix pcm16 channels (resize pcmf32 (pcm16_size pcm16 / channels))
        pure ⟨true, pcmf32, sample_rate⟩
      else
        pure ⟨true, pcmf32, sample_rate⟩

/-! ## The engine -/

/-- The enumeration `whisper_sampling_strategy` of `whisper.h`. -/
inductive whisper_sampling_strategy where
  | WHISPER_SAMPLING_GREEDY
  | WHISPER_SAMPLING_BEAM_SEARCH
  deriving DecidableEq, Repr

/-- The fields of `struct whisper_full_params` that `transcribe` assigns, and the strategy
the defaults were asked for.  The fields the program never touches travel unchanged from
`whisper_full_default_params` to `whisper_full` and are left out. -/
structure whisper_full_params where
  strategy : whisper_sampling_strategy
  n_threads : Int
  offset_ms : Int
  audio_ctx : Int
  translate : Bool
  no_context : Bool
  single_segment : Bool
  print_special : Bool
  print_progress : Bool
  print_realtime : Bool
  print_timestamps : Bool
  language : Option String
  suppress_blank : Bool
  suppress_nst : Bool
  deriving DecidableEq, Repr

/-- The live contexts of the engine: the address of each with its internal state. -/
abbrev EngineState (κ : Type) := List (Int × κ)

/-- The whisper engine, which is not part of the repository: what loading a model gives
(`none` for a `NULL` result, else the address and the state of the new context), what an
inference run does to a context and which status it returns, and the two segment accessors. -/
structure Engine (κ : Type) where
  whisper_full_default_params : whisper_sampling_strategy → whisper_full_params
  init_from_file : String → EngineState κ → Option (Int × κ)
  full : κ → whisper_full_params → List ℚ → Int × κ
  n_segments : κ → Int
  get_segment_text : κ → Int → String

/-- The live contexts once the context at `ctx` is gone. -/
def release {κ : Type} (ctx : Int) (s : EngineState κ) : EngineState κ :=
  s.filter (fun e => e.1 != ctx)

/-- The call `whisper_init_from_file_with_params(path, cparams)`: `0` is `NULL`. -/
def whisper_init_from_file_with_params {κ : Type} (E : Engine κ) (path : String)
    (s : EngineState κ) : Int × EngineState κ :=
  match E.init_from_file path s with
  | none => (0, s)
  | some (p, k) => if p = 0 then (0, s) else (p, (p, k) :: s)

/-- The call `whisper_full(ctx, wparams, samples, n_samples)`; a context that is not live is
a fault. -/
def whisper_full {κ : Type} (E : Engine κ) (ctx : Int) (wparams : whisper_full_params)
    (samples : List ℚ) (s : EngineState κ) : Except Fault (Int × EngineState κ) :=
  match s.lookup ctx with
  | none => .error .invalidContext
  | some k => .ok ((E.full k wparams samples).1, (ctx, (E.full k wparams samples).2) :: release ctx s)

/-- The call `whisper_full_n_segments(ctx)`. -/
def whisper_full_n_segments {κ : Type} (E : Engine κ) (ctx : Int) (s : EngineState κ) :
    Except Fault Int :=
  match s.lookup ctx with
  | none => .error .invalidContext
  | some k => .ok (E.n_segments k)

/-- The call `whisper_full_get_segment_text(ctx, i)`. -/
def whisper_full_get_segment_text {κ : Type} (E : Engine κ) (ctx : Int) (i : Int)
    (s : EngineState κ) : Except Fault String :=
  match s.lookup ctx with
  | none => .error .invalidContext
  | some k => .ok (E.get_segment_text k i)

/-- The call `whisper_free(ctx)` on a non-null pointer; releasing a context that is not live
is a fault. -/
def whisper_free {κ : Type} (ctx : Int) (s : EngineState κ) : Except Fault (EngineState κ) :=
  match s.lookup ctx with
  | none => .error .invalidContext
  | some _ => .ok (release ctx s)

/-! ## The JNI entry points -/

/-- The function `Java_com_example_xai_1translate_WhisperJNI_initContext`: the returned
`jlong` and the engine afterwards. -/
def initContext {κ : Type} (E : Engine κ) (model_path : String) (s : EngineState κ) :
    Int × EngineState κ :=
  let r := whisper_init_from_file_with_params E model_path s
  if r.1 = 0 then (0, r.2) else (r.1, r.2)

/-- The parameter block `wparams` that `transcribe` hands to `whisper_full`. -/
def transcribe_params {κ : Type} (E : Engine κ) : whisper_full_params :=
  { E.whisper_full_default_params .WHISPER_SAMPLING_GREEDY with
    print_realtime := false
    print_progress := false
    print_timestamps := false
    print_special := false
    translate := false
    language := none
    n_threads := 8
    offset_ms := 0
    no_context := true
    single_segment := false
    audio_ctx := 512
    suppress_blank := true
    suppress_nst := false }

/-- The loop `for (int i = 0; i < n_segments; i++) result += whisper_full_get_segment_text(ctx, i);`
starting from the empty `result`. -/
def collect_segments {κ : Type} (E : Engine κ) (ctx : Int) (n_segments : Int)
    (s : EngineState κ) : Except Fault String :=
  (List.range n_segments.toNat).foldlM
    (fun (result : String) (i : Nat) => do
      let text ← whisper_full_get_segment_text E ctx (i : Int) s
      pure (result ++ text)) ""

/-- The function `Java_com_example_xai_1translate_WhisperJNI_transcribe`: the returned string
and the engine afterwards.  `fs` gives the content of the file at a path. -/
def transcribe {κ : Type} (E : Engine κ) (fs : String → Option (List Byte)) (context_ptr : Int)
    (audio_path : String) (s : EngineState κ) : Except Fault (String × EngineState κ) :=
  if context_ptr = 0 then .ok ("", s)
  else
    match read_wav (fs audio_path) [] 0 with
    | .error e => .error e
    | .ok r =>
      if r.ok = false then .ok ("", s)
      else
        match whisper_full E context_ptr (transcribe_params E) r.pcmf32 s with
        | .error e => .error e
        | .ok (status, s1) =>
          if status ≠ 0 then .ok ("", s1)
          else
            match whisper_full_n_segments E context_ptr s1 with
            | .error e => .error e
            | .ok n_segments =>
              match collect_segments E context_ptr n_segments s1 with
              | .error e => .error e
              | .ok result => .ok (result, s1)

/-- The function `Java_com_example_xai_1translate_WhisperJNI_freeContext`. -/
def freeContext {κ : Type} (context_ptr : Int) (s : EngineState κ) :
    Except Fault (EngineState κ) :=
  if context_ptr ≠ 0 then whisper_free context_ptr s else .ok s

/-- The function `Java_com_example_xai_1translate_WhisperJNI_getVersion`. -/
def getVersion : String := "whisper.cpp"

/-! ## Test inputs -/

/-- A 44-byte header with the two tags, the given channel count, sample rate and sample depth;
the size fields, which `read_wav` never reads, are zero. -/
def mk_header (channels sample_rate bits : Nat) : List Byte :=
  RIFF ++ [0, 0, 0, 0] ++ WAVE ++ [102, 109, 116, 32, 16, 0, 0, 0, 1, 0]
    ++ [Fin.ofNat channels, Fin.ofNat (channels / 256)]
    ++ [Fin.ofNat sample_rate, Fin.ofNat (sample_rate / 256), Fin.ofNat (sample_rate / 65536),
        Fin.ofNat (sample_rate / 16777216)]
    ++ [0, 0, 0, 0, 0, 0]
    ++ [Fin.ofNat bits, Fin.ofNat (bits / 256)]
    ++ [100, 97, 116, 97, 0, 0, 0, 0]

/-- The two bytes of a signed 16-bit value, low byte first. -/
def encode_short (x : Int) : List Byte :=
  [Fin.ofNat (x % 256).toNat, Fin.ofNat (x / 256 % 256).toNat]

/-- The payload of a mono file holding the samples `xs`. -/
def mono_payload : List Int → List Byte
  | [] => []
  | x :: xs => encode_short x ++ mono_payload xs

/-- The payload of a stereo file whose left and right channels both hold the samples `xs`. -/
def stereo_payload : List Int → List Byte
  | [] => []
  | x :: xs => encode_short x ++ encode_short x ++ stereo_payload xs

/-- An engine for examples: it loads the model file `ggml-tiny.bin` only, rejects an empty sample
buffer with status `-1` and otherwise leaves two segments in the context. -/
def demo_engine : Engine (List String) where
  whisper_full_default_params := fun st =>
    { strategy := st, n_threads := 4, offset_ms := 0, audio_ctx := 0, translate := false,
      no_context := true, single_segment := false, print_special := false,
      print_progress := true, print_realtime := false, print_timestamps := true,
      language := some "en", suppress_blank := true, suppress_nst := false }
  init_from_file := fun path s =>
    if path = "ggml-tiny.bin" then some (4096 + (s.length : Int), []) else none
  full := fun k _ samples => if samples.length = 0 then (-1, k) else (0, ["Hello", " world"])
  n_segments := fun k => (k.length : Int)
  get_segment_text := fun k i => k.getD i.toNat ""

/-- A file system for examples: a mono recording of two samples, a header-only recording and
a text file. -/
def demo_fs : String → Option (List Byte) := fun path =>
  if path = "speech.wav" then some (mk_header 1 16000 16 ++ [0, 64, 0, 192])
  else if path = "empty.wav" then some (mk_header 1 16000 16)
  else if path = "notes.txt" then some [104, 105]
  else none

/-! ## Vocabulary of the statements -/

/-- The `k`-th signed 16-bit little-endian sample of a payload. -/
def sample (payload : List Byte) (k : Nat) : Int :=
  to_short (payload.getD (2 * k) 0) (payload.getD (2 * k + 1) 0)

/-- The mean over the `n` channels of frame `i`, each sample divided by 32768. -/
def frame_mean (payload : List Byte) (n i : Nat) : ℚ :=
  (∑ c in Finset.range n, (sample payload (i * n + c) : ℚ) / 32768) / (n : ℚ)

/-- The file begins with a complete 44-byte header bearing `RIFF` at offset 0 and `WAVE` at
offset 8. -/
def has_wav_header (bytes : List Byte) : Prop :=
  44 ≤ bytes.length ∧ bytes.take 4 = RIFF ∧ (bytes.drop 8).take 4 = WAVE

instance (bytes : List Byte) : Decidable (has_wav_header bytes) := by
  unfold has_wav_header; infer_instance

/-- The header field `channel_count` (16-bit little-endian at offset 22). -/
def channel_count (bytes : List Byte) : Nat := read_u16 bytes 22

/-- The header field `bits_per_sample` (16-bit little-endian at offset 34). -/
def bits_per_sample (bytes : List Byte) : Nat := read_u16 bytes 34

/-- The header field `sample_rate` (32-bit little-endian at offset 24). -/
def header_sample_rate (bytes : List Byte) : Nat := read_u32 bytes 24

/-! ## Loops -/

theorem foldlM_range_ok {β : Type} (f : β → Nat → Except Fault β) (g : β → Nat → β) (n : Nat)
    (h : ∀ b i, i < n → f b i = .ok (g b i)) (b0 : β) :
    (List.range n).foldlM f b0 = .ok ((List.range n).foldl g b0) := by
  induction n with
  | zero => rfl
  | succ m ih =>
    have ih1 := ih (fun b i hi => h b i (Nat.lt_succ_of_lt hi))
    rw [List.range_succ, List.foldlM_append, List.foldl_append, ih1]
    simp [bind, Except.bind, h _ m (Nat.lt_succ_self m), pure, Except.pure]

theorem foldl_sum_range (t : Nat → ℚ) (n : Nat) :
    (List.range n).foldl (fun (sum : ℚ) c => sum + t c) 0 = ∑ c in Finset.range n, t c := by
  induction n with
  | zero => simp
  | succ m ih => rw [List.range_succ, List.foldl_append, ih, Finset.sum_range_succ]; simp

theorem foldl_set_range (g : Nat → ℚ) (buf : List ℚ) (m : Nat) (hm : m ≤ buf.length) :
    (List.range m).foldl (fun (out : List ℚ) i => out.set i (g i)) buf
      = (List.range m).map g ++ buf.drop m := by
  induction m with
  | zero => simp
  | succ k ih =>
    have hk : k < buf.length := hm
    rw [List.range_succ, List.foldl_append, ih (Nat.le_of_lt hk)]
    have hlen : ((List.range k).map g).length = k := by simp
    simp only [List.foldl_cons, List.foldl_nil, List.map_append, List.map_cons, List.map_nil]
    rw [List.set_append_right _ _ (by simp), hlen, Nat.sub_self]
    rw [List.drop_eq_getElem_cons hk, List.set_cons_zero]
    simp

/-! ## The decode path -/

theorem fread_even (stream : List Byte) (h : stream.length % 2 = 0) :
    fread (List.replicate (2 * (stream.length / 2)) 0) stream.length stream = .ok stream := by
  have h2 : 2 * (stream.length / 2) = stream.length := by omega
  simp [fread, h2]

theorem fread_odd (stream : List Byte) (h : stream.length % 2 = 1) :
    fread (List.replicate (2 * (stream.length / 2)) 0) stream.length stream
      = .error .heapOverflow := by
  have h2 : 2 * (stream.length / 2) < stream.length := by omega
  simp [fread, h2]

theorem pcm16_at_ok (storage : List Byte) (k : Nat) (h : k < pcm16_size storage) :
    pcm16_at storage k = .ok (sample storage k) := by
  simp [pcm16_at, h, sample]

theorem downmix_frame_ok (storage : List Byte) (n i : Nat)
    (h : (i + 1) * n ≤ pcm16_size storage) :
    downmix_frame storage n i = .ok (frame_mean storage n i) := by
  have hstep : ∀ (sum : ℚ) c, c < n →
      (do let x ← pcm16_at storage (i * n + c); pure (sum + (x : ℚ) / 32768) : Except Fault ℚ)
        = .ok (sum + (sample storage (i * n + c) : ℚ) / 32768) := by
    intro sum c hc
    have hb : i * n + c < pcm16_size storage := by
      have : i * n + n = (i + 1) * n := by ring
      omega
    rw [pcm16_at_ok storage _ hb]
    rfl
  unfold downmix_frame
  rw [foldlM_range_ok _
    (fun (sum : ℚ) c => sum + (sample storage (i * n + c) : ℚ) / 32768) n hstep]
  rw [foldl_sum_range (fun c => (sample storage (i * n + c) : ℚ) / 32768)]
  rfl

theorem downmix_ok (storage : List Byte) (n : Nat) (buf : List ℚ)
    (h : buf.length * n ≤ pcm16_size storage) :
    downmix storage n buf = .ok ((List.range buf.length).map (frame_mean storage n)) := by
  have hstep : ∀ (out : List ℚ) i, i < buf.length →
      (do let v ← downmix_frame storage n i; pure (out.set i v) : Except Fault (List ℚ))
        = .ok (out.set i (frame_mean storage n i)) := by
    intro out i hi
    have hb : (i + 1) * n ≤ pcm16_size storage :=
      le_trans (Nat.mul_le_mul_right n hi) h
    rw [downmix_frame_ok storage n i hb]
    rfl
  unfold downmix
  rw [foldlM_range_ok _ (fun (out : List ℚ) i => out.set i (frame_mean storage n i))
    buf.length hstep]
  rw [foldl_set_range (frame_mean storage n) buf buf.length (le_refl _)]
  simp

theorem resize_length (v : List ℚ) (n : Nat) : (resize v n).length = n := by
  simp [resize]
  omega

theorem header_checks (bytes : List Byte) (h : has_wav_header bytes) :
    (bytes.take 44).length = 44 ∧ (bytes.take 44).take 4 = RIFF
      ∧ ((bytes.take 44).drop 8).take 4 = WAVE := by
  obtain ⟨h1, h2, h3⟩ := h
  refine ⟨by simp [h1], ?_, ?_⟩
  · rw [List.take_take]; exact h2
  · rw [List.drop_take, List.take_take]; exact h3

theorem read_u16_take (bytes : List Byte) (off : Nat) (h : off + 1 < 44) :
    read_u16 (bytes.take 44) off = read_u16 bytes off := by
  simp [read_u16, List.getD_eq_getElem?_getD, List.getElem?_take, h, Nat.lt_of_succ_lt h]

theorem read_u32_take (bytes : List Byte) (off : Nat) (h : off + 3 < 44) :
    read_u32 (bytes.take 44) off = read_u32 bytes off := by
  have h0 : off < 44 := by omega
  have h1 : off + 1 < 44 := by omega
  have h2 : off + 2 < 44 := by omega
  simp [read_u32, List.getD_eq_getElem?_getD, List.getElem?_take, h, h0, h1, h2]

/-- The shape of `read_wav` once the header checks have passed. -/
theorem read_wav_header_ok (bytes : List Byte) (buf : List ℚ) (sr : Nat)
    (h : has_wav_header bytes) :
    read_wav (some bytes) buf sr =
      if bits_per_sample bytes = 16 then do
        let pcm16 ← fread (List.replicate (2 * ((bytes.length - 44) / 2)) 0)
          (bytes.length - 44) (bytes.drop 44)
        if channel_count bytes = 0 then throw Fault.divByZero
        let pcmf32 ← downmix pcm16 (channel_count bytes)
          (resize buf (pcm16_size pcm16 / channel_count bytes))
        pure ⟨true, pcmf32, header_sample_rate bytes⟩
      else
        pure ⟨true, buf, header_sample_rate bytes⟩ := by
  obtain ⟨h1, h2, h3⟩ := header_checks bytes h
  simp only [read_wav, h1, h2, h3, ne_eq, not_true_eq_false, or_self, if_false,
    read_u16_take bytes 34 (by decide), read_u16_take bytes 22 (by decide),
    read_u32_take bytes 24 (by decide), bits_per_sample, channel_count, header_sample_rate]

theorem drop_header_length (bytes : List Byte) : (bytes.drop 44).length = bytes.length - 44 := by
  simp

/-- On a payload of an even number of bytes and with at least one channel, `read_wav` succeeds
with one mean per whole frame. -/
theorem read_wav_even_payload (bytes : List Byte) (buf : List ℚ) (sr : Nat)
    (h : has_wav_header bytes) (hbits : bits_per_sample bytes = 16)
    (hch : 1 ≤ channel_count bytes) (heven : (bytes.length - 44) % 2 = 0) :
    read_wav (some bytes) buf sr = .ok ⟨true,
      (List.range ((bytes.length - 44) / 2 / channel_count bytes)).map
        (frame_mean (bytes.drop 44) (channel_count bytes)),
      header_sample_rate bytes⟩ := by
  rw [read_wav_header_ok bytes buf sr h, if_pos hbits]
  have hfread := fread_even (bytes.drop 44) (by rw [drop_header_length]; exact heven)
  rw [drop_header_length] at hfread
  rw [hfread]
  have hne : channel_count bytes ≠ 0 := by omega
  have hsize : pcm16_size (bytes.drop 44) = (bytes.length - 44) / 2 := by
    simp [pcm16_size]
  have hlen := resize_length buf (pcm16_size (bytes.drop 44) / channel_count bytes)
  have hdm := downmix_ok (bytes.drop 44) (channel_count bytes)
    (resize buf (pcm16_size (bytes.drop 44) / channel_count bytes))
    (by rw [hlen]; exact Nat.div_mul_le_self _ _)
  rw [hlen, hsize] at hdm
  simp only [bind, Except.bind, hne, if_false, hsize] at hdm ⊢
  rw [hdm]
  rfl

/-- On a payload of an odd number of bytes `fread` stores one byte more than the sample
vector holds. -/
theorem read_wav_odd_payload (bytes : List Byte) (buf : List ℚ) (sr : Nat)
    (h : has_wav_header bytes) (hbits : bits_per_sample bytes = 16)
    (hodd : (bytes.length - 44) % 2 = 1) :
    read_wav (some bytes) buf sr = .error .heapOverflow := by
  rw [read_wav_header_ok bytes buf sr h, if_pos hbits]
  have hfread := fread_odd (bytes.drop 44) (by rw [drop_header_length]; exact hodd)
  rw [drop_header_length] at hfread
  rw [hfread]
  rfl

/-- With a channel count of zero the frame count `pcm16.size() / channels` divides by zero. -/
theorem read_wav_zero_channels (bytes : List Byte) (buf : List ℚ) (sr : Nat)
    (h : has_wav_header bytes) (hbits : bits_per_sample bytes = 16)
    (hch : channel_count bytes = 0) (heven : (bytes.length - 44) % 2 = 0) :
    read_wav (some bytes) buf sr = .error .divByZero := by
  rw [read_wav_header_ok bytes buf sr h, if_pos hbits]
  have hfread := fread_even (bytes.drop 44) (by rw [drop_header_length]; exact heven)
  rw [drop_header_length] at hfread
  rw [hfread]
  simp [bind, Except.bind, hch, throw, throwThe, MonadExceptOf.throw]

/-- Without a complete header bearing both tags `read_wav` returns `false` and touches neither
reference parameter. -/
theorem read_wav_bad_header (bytes : List Byte) (buf : List ℚ) (sr : Nat)
    (h : ¬ has_wav_header bytes) :
    read_wav (some bytes) buf sr = .ok ⟨false, buf, sr⟩ := by
  unfold read_wav
  by_cases hlen : 44 ≤ bytes.length
  · have h1 : (bytes.take 44).length = 44 := by simp [hlen]
    have h2 : (bytes.take 44).take 4 ≠ RIFF ∨ ((bytes.take 44).drop 8).take 4 ≠ WAVE := by
      rw [List.take_take, List.drop_take, List.take_take]
      by_contra hc
      push_neg at hc
      exact h ⟨hlen, hc.1, hc.2⟩
    simp only [h1, ne_eq, not_true_eq_false, if_false, h2, if_true]
  · have h1 : (bytes.take 44).length ≠ 44 := by
      simp only [List.length_take]; omega
    simp only [h1, ne_eq, not_false_eq_true, if_true]

/-- With a sample depth other than 16 `read_wav` stores the sample rate, leaves the sample
buffer as it was and returns `true`. -/
theorem read_wav_other_depth (bytes : List Byte) (buf : List ℚ) (sr : Nat)
    (h : has_wav_header bytes) (hbits : bits_per_sample bytes ≠ 16) :
    read_wav (some bytes) buf sr = .ok ⟨true, buf, header_sample_rate bytes⟩ := by
  rw [read_wav_header_ok bytes buf sr h, if_neg hbits]
  rfl

/-! ## Encoded samples -/

theorem to_short_encode (x : Int) (h1 : -32768 ≤ x) (h2 : x ≤ 32767) :
    to_short (Fin.ofNat (x % 256).toNat) (Fin.ofNat (x / 256 % 256).toNat) = x := by
  have hlo : ((Fin.ofNat (x % 256).toNat : Byte).val : Int) = x % 256 := by
    simp only [Fin.ofNat, Nat.succ_eq_add_one]
    omega
  have hhi : ((Fin.ofNat (x / 256 % 256).toNat : Byte).val : Int) = x / 256 % 256 := by
    simp only [Fin.ofNat, Nat.succ_eq_add_one]
    omega
  unfold to_short
  split_ifs with hc
  · push_cast
    rw [hlo, hhi]
    have : ((Fin.ofNat (x % 256).toNat : Byte).val : Int)
        + 256 * ((Fin.ofNat (x / 256 % 256).toNat : Byte).val : Int) < 32768 := by
      exact_mod_cast hc
    rw [hlo, hhi] at this
    omega
  · push_cast
    rw [hlo, hhi]
    have : ¬ ((Fin.ofNat (x % 256).toNat : Byte).val : Int)
        + 256 * ((Fin.ofNat (x / 256 % 256).toNat : Byte).val : Int) < 32768 := by
      exact_mod_cast hc
    rw [hlo, hhi] at this
    omega

theorem mono_payload_length (xs : List Int) : (mono_payload xs).length = 2 * xs.length := by
  induction xs with
  | nil => rfl
  | cons x xs ih => simp [mono_payload, encode_short, ih]; omega

theorem stereo_payload_length (xs : List Int) : (stereo_payload xs).length = 4 * xs.length := by
  induction xs with
  | nil => rfl
  | cons x xs ih => simp [stereo_payload, encode_short, ih]; omega

theorem sample_mono_payload (xs : List Int) (h : ∀ x ∈ xs, -32768 ≤ x ∧ x ≤ 32767) (i : Nat)
    (hi : i < xs.length) : sample (mono_payload xs) i = xs.getD i 0 := by
  induction xs generalizing i with
  | nil => simp at hi
  | cons x xs ih =>
    cases i with
    | zero =>
      simp [sample, mono_payload, encode_short]
      exact to_short_encode x (h x (by simp)).1 (h x (by simp)).2
    | succ j =>
      have hj : j < xs.length := by simpa using hi
      have := ih (fun y hy => h y (by simp [hy])) j hj
      simp only [sample, mono_payload, encode_short, List.cons_append, List.nil_append,
        Nat.mul_add, Nat.mul_one, List.getD_cons_succ] at this ⊢
      exact this

theorem sample_stereo_payload (xs : List Int) (h : ∀ x ∈ xs, -32768 ≤ x ∧ x ≤ 32767) (i : Nat)
    (hi : i < xs.length) :
    sample (stereo_payload xs) (i * 2) = xs.getD i 0
      ∧ sample (stereo_payload xs) (i * 2 + 1) = xs.getD i 0 := by
  induction xs generalizing i with
  | nil => simp at hi
  | cons x xs ih =>
    cases i with
    | zero =>
      simp [sample, stereo_payload, encode_short]
      exact to_short_encode x (h x (by simp)).1 (h x (by simp)).2
    | succ j =>
      have hj : j < xs.length := by simpa using hi
      have := ih (fun y hy => h y (by simp [hy])) j hj
      have e1 : 2 * ((j + 1) * 2) = 2 * (j * 2) + 1 + 1 + 1 + 1 := by ring
      have e2 : 2 * ((j + 1) * 2 + 1) = 2 * (j * 2 + 1) + 1 + 1 + 1 + 1 := by ring
      simp only [sample, stereo_payload, encode_short, List.cons_append, List.nil_append,
        e1, e2, List.getD_cons_succ] at this ⊢
      exact this

/-! ## Headers in front of a payload -/

theorem has_wav_header_append (hdr payload : List Byte) (hlen : hdr.length = 44)
    (h : has_wav_header hdr) : has_wav_header (hdr ++ payload) := by
  obtain ⟨_, h2, h3⟩ := h
  refine ⟨by simp [hlen], ?_, ?_⟩
  · rw [List.take_append_of_le_length (by omega)]; exact h2
  · rw [List.drop_append_of_le_length (by omega),
      List.take_append_of_le_length (by simp [hlen])]
    exact h3

theorem read_u16_append (hdr payload : List Byte) (off : Nat) (h : off + 1 < hdr.length) :
    read_u16 (hdr ++ payload) off = read_u16 hdr off := by
  unfold read_u16
  rw [List.getD_append _ _ _ _ (by omega), List.getD_append _ _ _ _ h]

theorem drop_header_append (hdr payload : List Byte) (hlen : hdr.length = 44) :
    (hdr ++ payload).drop 44 = payload := by
  rw [← hlen]; exact List.drop_left hdr payload

theorem sample_bounds (payload : List Byte) (k : Nat) :
    -32768 ≤ sample payload k ∧ sample payload k ≤ 32767 := by
  unfold sample to_short
  have h1 := (payload.getD (2 * k) 0).isLt
  have h2 := (payload.getD (2 * k + 1) 0).isLt
  split_ifs with hc
  · constructor <;> omega
  · constructor <;> omega

theorem frame_mean_mono (payload : List Byte) (i : Nat) :
    frame_mean payload 1 i = (sample payload i : ℚ) / 32768 := by
  simp [frame_mean]

theorem frame_mean_stereo (payload : List Byte) (i : Nat) :
    frame_mean payload 2 i
      = ((sample payload (i * 2) : ℚ) / 32768 + (sample payload (i * 2 + 1) : ℚ) / 32768) / 2 := by
  simp [frame_mean, Finset.sum_range_succ]

/-- The general decode result in the vocabulary of frames: on an even payload and with at least
one channel, the sample count is the number of whole frames and sample `i` is the mean of
frame `i`. -/
theorem read_wav_frames_even (bytes : List Byte) (buf : List ℚ) (sr : Nat)
    (h : has_wav_header bytes) (hbits : bits_per_sample bytes = 16)
    (hch : 1 ≤ channel_count bytes) (heven : (bytes.length - 44) % 2 = 0) :
    ∃ r, read_wav (some bytes) buf sr = .ok r ∧ r.ok = true
      ∧ r.pcmf32.length = (bytes.length - 44) / 2 / channel_count bytes
      ∧ ∀ i, i < r.pcmf32.length →
          r.pcmf32.getD i 0 = frame_mean (bytes.drop 44) (channel_count bytes) i := by
  refine ⟨_, read_wav_even_payload bytes buf sr h hbits hch heven, rfl, by simp, ?_⟩
  intro i hi
  simp only [List.length_map, List.length_range] at hi
  simp [List.getD_eq_getElem?_getD, List.getElem?_map, List.getElem?_range hi]

/-- The mono decode result on an even payload: one sample per two payload bytes, each within
the closed interval from -1 to 1. -/
theorem read_wav_mono_even (bytes : List Byte) (buf : List ℚ) (sr : Nat)
    (h : has_wav_header bytes) (hbits : bits_per_sample bytes = 16)
    (hch : channel_count bytes = 1) (heven : (bytes.length - 44) % 2 = 0) :
    ∃ r, read_wav (some bytes) buf sr = .ok r ∧ r.ok = true
      ∧ r.pcmf32.length = (bytes.length - 44) / 2
      ∧ ∀ v ∈ r.pcmf32, -1 ≤ v ∧ v ≤ 1 := by
  refine ⟨_, read_wav_even_payload bytes buf sr h hbits (by omega) heven, rfl,
    by simp [hch], ?_⟩
  intro v hv
  simp only [List.mem_map, List.mem_range] at hv
  obtain ⟨i, _, rfl⟩ := hv
  rw [hch, frame_mean_mono]
  obtain ⟨h1, h2⟩ := sample_bounds (bytes.drop 44) i
  have h1q : (-32768 : ℚ) ≤ (sample (bytes.drop 44) i : ℚ) := by exact_mod_cast h1
  have h2q : (sample (bytes.drop 44) i : ℚ) ≤ 32767 := by exact_mod_cast h2
  constructor
  · rw [le_div_iff₀ (by norm_num)]; linarith
  · rw [div_le_iff₀ (by norm_num)]; linarith

theorem decode_mono_payload (hm : List Byte) (xs : List Int) (buf : List ℚ) (sr : Nat)
    (hlen : hm.length = 44) (hh : has_wav_header hm) (hb : bits_per_sample hm = 16)
    (hc : channel_count hm = 1) (hx : ∀ x ∈ xs, -32768 ≤ x ∧ x ≤ 32767) :
    read_wav (some (hm ++ mono_payload xs)) buf sr
      = .ok ⟨true, xs.map (fun (x : Int) => (x : ℚ) / 32768), header_sample_rate (hm ++ mono_payload xs)⟩ := by
  have hc1 : channel_count (hm ++ mono_payload xs) = 1 := by
    unfold channel_count at hc ⊢
    rw [read_u16_append _ _ _ (by omega), hc]
  have hb1 : bits_per_sample (hm ++ mono_payload xs) = 16 := by
    unfold bits_per_sample at hb ⊢
    rw [read_u16_append _ _ _ (by omega), hb]
  have hl : (hm ++ mono_payload xs).length - 44 = 2 * xs.length := by
    simp [hlen, mono_payload_length]
  rw [read_wav_even_payload _ buf sr (has_wav_header_append hm _ hlen hh) hb1 (by omega)
    (by omega)]
  congr 2
  rw [hc1, hl, drop_header_append hm _ hlen]
  apply List.ext_getElem
  · simp
  · intro i h1 h2
    have hi : i < xs.length := by simpa using h2
    simp only [List.getElem_map, List.getElem_range, frame_mean_mono]
    rw [sample_mono_payload xs hx i hi, List.getD_eq_getElem xs 0 hi]

theorem decode_stereo_payload (hs : List Byte) (xs : List Int) (buf : List ℚ) (sr : Nat)
    (hlen : hs.length = 44) (hh : has_wav_header hs) (hb : bits_per_sample hs = 16)
    (hc : channel_count hs = 2) (hx : ∀ x ∈ xs, -32768 ≤ x ∧ x ≤ 32767) :
    read_wav (some (hs ++ stereo_payload xs)) buf sr
      = .ok ⟨true, xs.map (fun (x : Int) => (x : ℚ) / 32768),
          header_sample_rate (hs ++ stereo_payload xs)⟩ := by
  have hc1 : channel_count (hs ++ stereo_payload xs) = 2 := by
    unfold channel_count at hc ⊢
    rw [read_u16_append _ _ _ (by omega), hc]
  have hb1 : bits_per_sample (hs ++ stereo_payload xs) = 16 := by
    unfold bits_per_sample at hb ⊢
    rw [read_u16_append _ _ _ (by omega), hb]
  have hl : (hs ++ stereo_payload xs).length - 44 = 4 * xs.length := by
    simp [hlen, stereo_payload_length]
  rw [read_wav_even_payload _ buf sr (has_wav_header_append hs _ hlen hh) hb1 (by omega)
    (by omega)]
  congr 2
  rw [hc1, hl, drop_header_append hs _ hlen]
  have hk : 4 * xs.length / 2 / 2 = xs.length := by omega
  rw [hk]
  apply List.ext_getElem
  · simp
  · intro i h1 h2
    have hi : i < xs.length := by simpa using h2
    simp only [List.getElem_map, List.getElem_range, frame_mean_stereo]
    obtain ⟨e1, e2⟩ := sample_stereo_payload xs hx i hi
    rw [e1, e2, List.getD_eq_getElem xs 0 hi]
    ring

/-! ## The claims about `read_wav` -/

/-- C1, at a failing input: a stereo file with a valid header and a payload of one whole frame
and one trailing byte.  The claim promises one sample; `read_wav` sizes the sample vector for
two samples (four bytes) and lets `fread` store all five payload bytes. -/
theorem read_wav_stereo_trailing_byte :
    read_wav (some (mk_header 2 16000 16 ++ [1, 0, 1, 0, 7])) [] 0 = .error .heapOverflow :=
  read_wav_odd_payload _ [] 0 (by decide) (by decide) (by decide)

/-- C2, at a failing input: a mono file with a valid header and a payload of one byte.  The
claim promises zero samples; `read_wav` sizes the sample vector for zero samples and lets
`fread` store the payload byte. -/
theorem read_wav_mono_trailing_byte :
    read_wav (some (mk_header 1 16000 16 ++ [7])) [] 0 = .error .heapOverflow :=
  read_wav_odd_payload _ [] 0 (by decide) (by decide) (by decide)

/-- C3: for a file that can be opened and does not begin with a complete 44-byte header bearing
`RIFF` at offset 0 and `WAVE` at offset 8, `read_wav` returns `false` and leaves the sample
buffer and the sample rate as they were on entry. -/
theorem read_wav_rejects_bad_header (bytes : List Byte) (buf : List ℚ) (sr : Nat)
    (h : ¬ has_wav_header bytes) :
    read_wav (some bytes) buf sr = .ok ⟨false, buf, sr⟩ :=
  read_wav_bad_header bytes buf sr h

theorem read_wav_rejects_bad_header_witness :
    ¬ has_wav_header [82, 73, 70, 70, 0, 0] ∧
      read_wav (some [82, 73, 70, 70, 0, 0]) [1, 2] 7 = .ok ⟨false, [1, 2], 7⟩ :=
  ⟨by decide, read_wav_rejects_bad_header [82, 73, 70, 70, 0, 0] [1, 2] 7 (by decide)⟩

/-- C4, at a failing input: a mono file with a valid header, a sample depth of 8 and two payload
bytes.  The claim promises a decode failure; `read_wav` skips the decode, leaves the sample
buffer empty and returns `true`. -/
theorem read_wav_depth_8_succeeds :
    read_wav (some (mk_header 1 16000 8 ++ [128, 130])) [] 0 = .ok ⟨true, [], 16000⟩ :=
  read_wav_other_depth (mk_header 1 16000 8 ++ [128, 130]) [] 0 (by decide) (by decide)

/-- C9: for signed 16-bit samples `xs`, the stereo file whose left and right channels both
hold `xs` and the mono file holding `xs` decode to the same sample buffer, of the length of
`xs`; it holds `x / 32768` for each sample `x`. -/
theorem stereo_identical_channels_eq_mono (hs hm : List Byte) (xs : List Int)
    (bufs bufm : List ℚ) (srs srm : Nat)
    (hslen : hs.length = 44) (hsh : has_wav_header hs) (hsb : bits_per_sample hs = 16)
    (hsc : channel_count hs = 2)
    (hmlen : hm.length = 44) (hmh : has_wav_header hm) (hmb : bits_per_sample hm = 16)
    (hmc : channel_count hm = 1)
    (hx : ∀ x ∈ xs, -32768 ≤ x ∧ x ≤ 32767) :
    ∃ rs rm, read_wav (some (hs ++ stereo_payload xs)) bufs srs = .ok rs
      ∧ read_wav (some (hm ++ mono_payload xs)) bufm srm = .ok rm
      ∧ rs.ok = true ∧ rm.ok = true
      ∧ rs.pcmf32 = rm.pcmf32
      ∧ rm.pcmf32.length = xs.length
      ∧ rm.pcmf32 = xs.map (fun (x : Int) => (x : ℚ) / 32768) :=
  ⟨_, _, decode_stereo_payload hs xs bufs srs hslen hsh hsb hsc hx,
    decode_mono_payload hm xs bufm srm hmlen hmh hmb hmc hx, rfl, rfl, rfl, by simp, rfl⟩

/-- C10: for a file with a complete header bearing both tags and a sample depth of 16, the
decode path of `read_wav` runs without a fault exactly when the channel count is at least one
and the payload has an even number of bytes. -/
theorem read_wav_fault_free_iff (bytes : List Byte) (buf : List ℚ) (sr : Nat)
    (h : has_wav_header bytes) (hbits : bits_per_sample bytes = 16) :
    (∃ r, read_wav (some bytes) buf sr = .ok r)
      ↔ (1 ≤ channel_count bytes ∧ (bytes.length - 44) % 2 = 0) := by
  constructor
  · rintro ⟨r, hr⟩
    by_cases heven : (bytes.length - 44) % 2 = 0
    · by_cases hch : channel_count bytes = 0
      · rw [read_wav_zero_channels bytes buf sr h hbits hch heven] at hr
        cases hr
      · exact ⟨by omega, heven⟩
    · rw [read_wav_odd_payload bytes buf sr h hbits (by omega)] at hr
      cases hr
  · rintro ⟨hch, heven⟩
    exact ⟨_, read_wav_even_payload bytes buf sr h hbits hch heven⟩

theorem stereo_identical_channels_eq_mono_witness :
    (mk_header 2 16000 16).length = 44 ∧ has_wav_header (mk_header 2 16000 16)
      ∧ bits_per_sample (mk_header 2 16000 16) = 16 ∧ channel_count (mk_header 2 16000 16) = 2
      ∧ (mk_header 1 8000 16).length = 44 ∧ has_wav_header (mk_header 1 8000 16)
      ∧ bits_per_sample (mk_header 1 8000 16) = 16 ∧ channel_count (mk_header 1 8000 16) = 1
      ∧ (∀ x ∈ [-32768, 32767, -1, 5], -32768 ≤ x ∧ x ≤ (32767 : Int))
      ∧ ∃ rs rm,
        read_wav (some (mk_header 2 16000 16 ++ stereo_payload [-32768, 32767, -1, 5])) [] 0
          = .ok rs
        ∧ read_wav (some (mk_header 1 8000 16 ++ mono_payload [-32768, 32767, -1, 5])) [] 0
          = .ok rm
        ∧ rs.ok = true ∧ rm.ok = true ∧ rs.pcmf32 = rm.pcmf32 ∧ rm.pcmf32.length = 4
        ∧ rm.pcmf32 = [-32768, 32767, -1, 5].map (fun (x : Int) => (x : ℚ) / 32768) :=
  ⟨by decide, by decide, by decide, by decide, by decide, by decide, by decide, by decide,
    by decide,
    stereo_identical_channels_eq_mono (mk_header 2 16000 16) (mk_header 1 8000 16)
      [-32768, 32767, -1, 5] [] [] 0 0 (by decide) (by decide) (by decide) (by decide)
      (by decide) (by decide) (by decide) (by decide) (by decide)⟩

theorem read_wav_fault_free_iff_witness :
    has_wav_header (mk_header 2 16000 16 ++ [1, 0, 1, 0])
      ∧ bits_per_sample (mk_header 2 16000 16 ++ [1, 0, 1, 0]) = 16
      ∧ ((∃ r, read_wav (some (mk_header 2 16000 16 ++ [1, 0, 1, 0])) [] 0 = .ok r)
        ↔ (1 ≤ channel_count (mk_header 2 16000 16 ++ [1, 0, 1, 0])
            ∧ ((mk_header 2 16000 16 ++ [1, 0, 1, 0]).length - 44) % 2 = 0)) :=
  ⟨by decide, by decide,
    read_wav_fault_free_iff (mk_header 2 16000 16 ++ [1, 0, 1, 0]) [] 0 (by decide) (by decide)⟩

/-! ## The engine's live contexts -/

theorem lookup_release {κ : Type} (ctx : Int) (s : EngineState κ) :
    (release ctx s).lookup ctx = none := by
  induction s with
  | nil => rfl
  | cons e s ih =>
    obtain ⟨p, k⟩ := e
    by_cases hp : p = ctx
    · simp only [release, List.filter, hp, bne_self_eq_false] at ih ⊢
      exact ih
    · have hb : (p != ctx) = true := by simpa using hp
      have hc : (ctx == p) = false := by simpa using fun e => hp e.symm
      simp only [release, List.filter, hb, List.lookup, hc] at ih ⊢
      exact ih

theorem lookup_head {κ : Type} (ctx : Int) (k : κ) (s : EngineState κ) :
    List.lookup ctx ((ctx, k) :: s) = some k := by
  simp [List.lookup]

theorem collect_segments_ok {κ : Type} (E : Engine κ) (ctx : Int) (n : Nat)
    (s : EngineState κ) (k : κ) (hlive : s.lookup ctx = some k) :
    collect_segments E ctx (n : Int) s
      = .ok (String.join ((List.range n).map (fun (i : Nat) => E.get_segment_text k (i : Int)))) := by
  have hstep : ∀ (result : String) (i : Nat), i < n →
      (do let text ← whisper_full_get_segment_text E ctx (i : Int) s; pure (result ++ text)
        : Except Fault String) = .ok (result ++ E.get_segment_text k (i : Int)) := by
    intro result i _
    simp only [whisper_full_get_segment_text, hlive]
    rfl
  unfold collect_segments
  rw [Int.toNat_ofNat, foldlM_range_ok _
    (fun (result : String) (i : Nat) => result ++ E.get_segment_text k (i : Int)) n hstep]
  rw [String.join, List.foldl_map]

theorem transcribe_null {κ : Type} (E : Engine κ) (fs : String → Option (List Byte))
    (audio : String) (s : EngineState κ) : transcribe E fs 0 audio s = .ok ("", s) := by
  simp [transcribe]

theorem transcribe_decode_failure {κ : Type} (E : Engine κ) (fs : String → Option (List Byte))
    (h : Int) (audio : String) (s : EngineState κ) (r : WavResult)
    (hread : read_wav (fs audio) [] 0 = .ok r) (hok : r.ok = false) :
    transcribe E fs h audio s = .ok ("", s) := by
  unfold transcribe
  split_ifs with h0
  · rfl
  · simp only [hread, hok, if_true]

theorem transcribe_after_decode {κ : Type} (E : Engine κ) (fs : String → Option (List Byte))
    (h : Int) (audio : String) (s : EngineState κ) (k : κ) (r : WavResult) (hne : h ≠ 0)
    (hlive : s.lookup h = some k) (hread : read_wav (fs audio) [] 0 = .ok r)
    (hok : r.ok = true) :
    transcribe E fs h audio s =
      if (E.full k (transcribe_params E) r.pcmf32).1 ≠ 0 then
        .ok ("", (h, (E.full k (transcribe_params E) r.pcmf32).2) :: release h s)
      else
        match collect_segments E h (E.n_segments (E.full k (transcribe_params E) r.pcmf32).2)
            ((h, (E.full k (transcribe_params E) r.pcmf32).2) :: release h s) with
        | .error e => .error e
        | .ok result =>
          .ok (result, (h, (E.full k (transcribe_params E) r.pcmf32).2) :: release h s) := by
  unfold transcribe
  simp only [hne, if_false, hread, hok, whisper_full, hlive, whisper_full_n_segments,
    lookup_head, Bool.true_eq_false]

theorem transcribe_released {κ : Type} (E : Engine κ) (fs : String → Option (List Byte))
    (h : Int) (audio : String) (s : EngineState κ) (r : WavResult) (hne : h ≠ 0)
    (hdead : s.lookup h = none) (hread : read_wav (fs audio) [] 0 = .ok r)
    (hok : r.ok = true) :
    transcribe E fs h audio s = .error .invalidContext := by
  unfold transcribe
  simp only [hne, if_false, hread, hok, whisper_full, hdead, Bool.true_eq_false]

theorem demo_speech_decodes :
    read_wav (demo_fs "speech.wav") [] 0
      = .ok ⟨true, (List.range 2).map (frame_mean [0, 64, 0, 192] 1), 16000⟩ :=
  read_wav_even_payload (mk_header 1 16000 16 ++ [0, 64, 0, 192]) [] 0 (by decide) (by decide)
    (by decide) (by decide)

theorem demo_empty_decodes :
    read_wav (demo_fs "empty.wav") [] 0 = .ok ⟨true, [], 16000⟩ :=
  read_wav_even_payload (mk_header 1 16000 16) [] 0 (by decide) (by decide)
    (by decide) (by decide)

theorem demo_notes_rejected :
    read_wav (demo_fs "notes.txt") [] 0 = .ok ⟨false, [], 0⟩ :=
  read_wav_bad_header [104, 105] [] 0 (by decide)

/-! ## The claims about the JNI entry points -/

/-- C5 as stated fails: after a context is created at address 4096, the first `freeContext`
releases it and the second hands the released context to `whisper_free` again. -/
theorem freeContext_twice_faults :
    initContext demo_engine "ggml-tiny.bin" [] = (4096, [(4096, [])])
      ∧ freeContext 4096 [(4096, ([] : List String))] = .ok []
      ∧ freeContext 4096 ([] : EngineState (List String)) = .error .invalidContext :=
  ⟨rfl, rfl, rfl⟩

/-- C5, amended: `freeContext` on the null handle faults in no engine state and leaves the
engine untouched, so it can be repeated at will; `freeContext` on a live non-null handle
releases that context without a fault, after which the context is no longer live. -/
theorem freeContext_null_or_live {κ : Type} (s : EngineState κ) (h : Int) (k : κ)
    (hne : h ≠ 0) (hlive : s.lookup h = some k) :
    freeContext 0 s = .ok s
      ∧ freeContext h s = .ok (release h s)
      ∧ (release h s).lookup h = none
      ∧ freeContext 0 (release h s) = .ok (release h s) := by
  refine ⟨by simp [freeContext], ?_, lookup_release h s, by simp [freeContext]⟩
  simp [freeContext, hne, whisper_free, hlive]

theorem freeContext_null_or_live_witness :
    (4096 : Int) ≠ 0 ∧ List.lookup 4096 [((4096 : Int), ["Hello"]), (8192, [])] = some ["Hello"]
      ∧ (freeContext 0 [((4096 : Int), ["Hello"]), (8192, [])]
            = .ok [((4096 : Int), ["Hello"]), (8192, [])]
        ∧ freeContext 4096 [((4096 : Int), ["Hello"]), (8192, [])]
            = .ok (release 4096 [((4096 : Int), ["Hello"]), (8192, [])])
        ∧ (release 4096 [((4096 : Int), ["Hello"]), (8192, [])]).lookup 4096 = none
        ∧ freeContext 0 (release 4096 [((4096 : Int), ["Hello"]), (8192, [])])
            = .ok (release 4096 [((4096 : Int), ["Hello"]), (8192, [])])) :=
  ⟨by decide, rfl,
    freeContext_null_or_live [((4096 : Int), ["Hello"]), (8192, [])] 4096 ["Hello"]
      (by decide) rfl⟩

/-- C6 as stated fails: a context is created at address 4096 and released; `transcribe` with
that handle and a decodable recording hands the released context to `whisper_full`. -/
theorem transcribe_freed_handle_faults :
    initContext demo_engine "ggml-tiny.bin" [] = (4096, [(4096, [])])
      ∧ freeContext 4096 [(4096, ([] : List String))] = .ok []
      ∧ transcribe demo_engine demo_fs 4096 "speech.wav" [] = .error .invalidContext :=
  ⟨rfl, rfl,
    transcribe_released demo_engine demo_fs 4096 "speech.wav" [] _ (by decide) rfl
      demo_speech_decodes rfl⟩

/-- C6, amended: when the engine cannot load the model `initContext` returns the handle 0 and
creates no context, and `transcribe` with the handle 0 returns the empty string in every
engine state, without a fault and without touching the engine. -/
theorem transcribe_null_handle {κ : Type} (E : Engine κ) (fs : String → Option (List Byte))
    (model_path audio : String) (s s1 : EngineState κ)
    (hload : E.init_from_file model_path s = none) :
    initContext E model_path s = (0, s) ∧ transcribe E fs 0 audio s1 = .ok ("", s1) := by
  refine ⟨?_, transcribe_null E fs audio s1⟩
  simp [initContext, whisper_init_from_file_with_params, hload]

theorem transcribe_null_handle_witness :
    demo_engine.init_from_file "missing.bin" [] = none
      ∧ initContext demo_engine "missing.bin" [] = (0, [])
      ∧ transcribe demo_engine demo_fs 0 "speech.wav" [(4096, ["Hello"])]
          = .ok ("", [(4096, ["Hello"])]) :=
  ⟨rfl, transcribe_null_handle demo_engine demo_fs "missing.bin" "speech.wav" []
    [(4096, ["Hello"])] rfl⟩

/-- C7: for a live handle and any audio path, when `read_wav` returns `false`, or when it
returns `true` and `whisper_full` returns a status other than 0, `transcribe` returns the
empty string. -/
theorem transcribe_empty_on_failure {κ : Type} (E : Engine κ)
    (fs : String → Option (List Byte)) (h : Int) (audio : String) (s : EngineState κ) (k : κ)
    (r : WavResult) (hlive : s.lookup h = some k)
    (hread : read_wav (fs audio) [] 0 = .ok r)
    (hfail : r.ok = false ∨ (E.full k (transcribe_params E) r.pcmf32).1 ≠ 0) :
    ∃ s1, transcribe E fs h audio s = .ok ("", s1) := by
  by_cases h0 : h = 0
  · exact ⟨s, by rw [h0]; exact transcribe_null E fs audio s⟩
  · cases hr : r.ok with
    | false => exact ⟨s, transcribe_decode_failure E fs h audio s r hread hr⟩
    | true =>
      have hst : (E.full k (transcribe_params E) r.pcmf32).1 ≠ 0 := by
        rcases hfail with hf | hf
        · rw [hr] at hf; cases hf
        · exact hf
      exact ⟨_, by rw [transcribe_after_decode E fs h audio s k r h0 hlive hread hr, if_pos hst]⟩

theorem transcribe_empty_on_failure_witness :
    (List.lookup 4096 [((4096 : Int), ["Hello"])] = some ["Hello"]
      ∧ read_wav (demo_fs "notes.txt") [] 0 = .ok ⟨false, [], 0⟩
      ∧ ∃ s1, transcribe demo_engine demo_fs 4096 "notes.txt" [(4096, ["Hello"])] = .ok ("", s1))
    ∧ (read_wav (demo_fs "empty.wav") [] 0 = .ok ⟨true, [], 16000⟩
      ∧ (demo_engine.full ["Hello"] (transcribe_params demo_engine) []).1 ≠ 0
      ∧ ∃ s1, transcribe demo_engine demo_fs 4096 "empty.wav" [(4096, ["Hello"])] = .ok ("", s1)) :=
  ⟨⟨rfl, demo_notes_rejected,
    transcribe_empty_on_failure demo_engine demo_fs 4096 "notes.txt" [(4096, ["Hello"])]
      ["Hello"] ⟨false, [], 0⟩ rfl demo_notes_rejected (Or.inl rfl)⟩,
   ⟨demo_empty_decodes, by decide,
    transcribe_empty_on_failure demo_engine demo_fs 4096 "empty.wav" [(4096, ["Hello"])]
      ["Hello"] ⟨true, [], 16000⟩ rfl demo_empty_decodes (Or.inr (by decide))⟩⟩

/-- C8: for a live non-null handle and a recording that `read_wav` decodes, when `whisper_full`
returns status 0 and the engine then reports `n` segments, `transcribe` returns the texts of
segments `0` to `n - 1` joined in index order with nothing in between. -/
theorem transcribe_concatenates_segments {κ : Type} (E : Engine κ)
    (fs : String → Option (List Byte)) (h : Int) (audio : String) (s : EngineState κ)
    (k k1 : κ) (r : WavResult) (n : Nat) (hne : h ≠ 0) (hlive : s.lookup h = some k)
    (hread : read_wav (fs audio) [] 0 = .ok r) (hok : r.ok = true)
    (hfull : E.full k (transcribe_params E) r.pcmf32 = (0, k1))
    (hn : E.n_segments k1 = (n : Int)) :
    transcribe E fs h audio s
      = .ok (String.join ((List.range n).map (fun (i : Nat) => E.get_segment_text k1 (i : Int))),
          (h, k1) :: release h s) := by
  rw [transcribe_after_decode E fs h audio s k r hne hlive hread hok, hfull]
  simp only [ne_eq, not_true_eq_false, if_false, hn]
  rw [collect_segments_ok E h n _ k1 (lookup_head h k1 _)]

theorem transcribe_concatenates_segments_witness :
    (4096 : Int) ≠ 0 ∧ List.lookup 4096 [((4096 : Int), ([] : List String))] = some []
      ∧ read_wav (demo_fs "speech.wav") [] 0
          = .ok ⟨true, (List.range 2).map (frame_mean [0, 64, 0, 192] 1), 16000⟩
      ∧ demo_engine.full [] (transcribe_params demo_engine)
          ((List.range 2).map (frame_mean [0, 64, 0, 192] 1)) = (0, ["Hello", " world"])
      ∧ demo_engine.n_segments ["Hello", " world"] = ((2 : Nat) : Int)
      ∧ transcribe demo_engine demo_fs 4096 "speech.wav" [(4096, [])]
          = .ok (String.join ((List.range 2).map
              (fun (i : Nat) => demo_engine.get_segment_text ["Hello", " world"] (i : Int))),
            (4096, ["Hello", " world"]) :: release 4096 [(4096, [])]) :=
  ⟨by decide, rfl, demo_speech_decodes, rfl, rfl,
    transcribe_concatenates_segments demo_engine demo_fs 4096 "speech.wav" [(4096, [])] []
      ["Hello", " world"] ⟨true, (List.range 2).map (frame_mean [0, 64, 0, 192] 1), 16000⟩ 2
      (by decide) rfl demo_speech_decodes rfl rfl rfl⟩

end WhisperJNI
